import Mathlib

/-!
Verification of the SmartChimera team-formation core.

This file gives a shallow embedding of the two core modules of the
repository and proves properties of them:

* backend/app/smart_team_formation.py : the dual-mode beam-search team
  formation optimizer (class SmartTeamFormation and its helpers), and
* backend/app/linchpin_detector.py : the linchpin / organizational-risk
  detector (class LinchpinDetector).

Modelling choices:

* Python floats are modelled by the rationals.  All numeric operations
  in the two modules are sums, products and comparisons of small
  literals, so the rational model preserves the branch structure.
* The Neo4j database driver is modelled by an explicit environment
  record of the query results used by the code (collaboration edges,
  global degree, availability hours, skills per employee, synthetic
  centrality overrides, authored github evidence counts).
* A failure of the centrality subsystem is modelled by the betweenness
  oracle of the optimizer environment returning none; an optimizer run
  that consults the failing oracle produces none (a raised exception),
  otherwise some result.
* Python dictionaries of weights are modelled by association lists with
  first-match lookup.  Database writes performed for provenance only
  (SET clauses) are not modelled: no claim reads them back.
-/

namespace SmartChimera

/-- Entry of the skills_detail list of a candidate dictionary: an
optional skill name and an optional proficiency level (None is modelled
by Option.none). -/
structure SkillEntry where
  skill : Option String
  nivel : Option ℚ
deriving DecidableEq, Repr

/-- Candidate dictionary as consumed by form_team: an identifier and the
skills_detail list.  Other keys of the Python dict are never read by the
optimizer. -/
structure Candidate where
  id : String
  skills_detail : List SkillEntry
deriving DecidableEq, Repr

/-- FormationMode from smart_team_formation.py. -/
inductive FormationMode where
  | resilient
  | performance
deriving DecidableEq, Repr

/-- Weight dictionaries, modelled as association lists (Python dicts
have unique keys, so first-match lookup agrees with dict lookup). -/
abbrev Dict : Type := List (String × ℚ)

/-- Dict lookup with a default value, modelling Python dict.get(k, v);
lookups written with brackets in the source are performed on weight
dictionaries that always contain the key, so the default is never
exercised there. -/
def dictGet : Dict → String → ℚ → ℚ
  | [], _, v => v
  | (k1, v1) :: d, k, v => if k1 = k then v1 else dictGet d k v

/-- Membership of a key in a weight dictionary. -/
def dictHasKey : Dict → String → Bool
  | [], _ => false
  | (k1, _) :: d, k => if k1 = k then true else dictHasKey d k

/-- Environment of database query results used by SmartTeamFormation.
collab is the TRABAJO_CON relation between employee ids (queried
undirected by the code), degree the number of TRABAJO_CON relationships
of an employee, hours the latest availability hours, and bc the
betweenness-centrality score delivered by _get_bc; bc returning none
models a failure of the centrality subsystem (the detector or the
database raising), which the code does not catch. -/
structure Env where
  collab : String → String → Bool
  degree : String → ℕ
  hours : String → ℚ
  bc : String → Option ℚ

/-- get_skills from smart_team_formation.py: the set of lower-cased
skill names of a candidate, skipping entries whose skill is missing or
the empty string (falsy in Python). -/
def get_skills (c : Candidate) : Finset String :=
  (c.skills_detail.filterMap fun s =>
    match s.skill with
    | some sk => if sk = "" then none else some sk.toLower
    | none => none).toFinset

/-- get_depth from smart_team_formation.py: the mean proficiency level
of the candidate over entries whose (lower-cased, empty-string default)
skill name is required, a missing level counting 0.5, and 0.0 when no
entry matches. -/
def get_depth (c : Candidate) (required : Finset String) : ℚ :=
  let levels := c.skills_detail.filterMap fun s =>
    if (s.skill.getD "").toLower ∈ required then some (s.nivel.getD (1/2)) else none
  if levels = [] then 0 else levels.sum / levels.length

/-- get_collab_edges from smart_team_formation.py: 0 for an empty team,
otherwise the number of team members related to the candidate by a
TRABAJO_CON relationship (the Cypher pattern is undirected, so the
stored relation is symmetrised; the collaboration graph is simple, one
relationship per pair). -/
def get_collab_edges (env : Env) (cid : String) (team_ids : Finset String) : ℕ :=
  if team_ids = ∅ then 0
  else (team_ids.filter fun b => env.collab cid b || env.collab b cid).card

/-- Default weight dictionary of each FormationMode (form_team lines
105-120). -/
def modeWeights : FormationMode → Dict
  | .resilient =>
    [("skill_coverage", 3), ("skill_depth", 2), ("collaboration", 5/2),
     ("redundancy", 2), ("bc_penalty", 15)]
  | .performance =>
    [("skill_coverage", 3), ("skill_depth", 3), ("collaboration", 2),
     ("redundancy", 3/2), ("bc_penalty", 0)]

/-- Weight dictionary built by form_team (lines 96-120): a truthy
custom_weights dict is consulted key by key with hardcoded fallbacks,
otherwise the mode defaults are used (None and the empty dict are falsy
in Python). -/
def buildWeights (mode : FormationMode) (custom_weights : Option Dict) : Dict :=
  match custom_weights with
  | some cw =>
    if cw.isEmpty then modeWeights mode
    else
      [("skill_coverage", dictGet cw "skill_coverage" 3),
       ("skill_depth", dictGet cw "skill_depth" 2),
       ("collaboration", dictGet cw "collaboration" 2),
       ("redundancy", dictGet cw "redundancy" (3/2)),
       ("bc_penalty", dictGet cw "bc_penalty" 0)]
  | none => modeWeights mode

/-- Beam-search state of form_team: the partial team, its id set, the
covered required skills and the cumulative raw score. -/
structure BState where
  team : List Candidate
  ids : Finset String
  covered : Finset String
  score : ℚ
deriving DecidableEq

/-- Initial beam state: an empty team (form_team line 130). -/
def initState : BState := ⟨[], ∅, ∅, 0⟩

/-- Skill-coverage term (form_team lines 148-150). -/
def coverageScore (w : Dict) (required covered : Finset String) (c : Candidate) : ℚ :=
  ((get_skills c ∩ (required \ covered)).card : ℚ) * dictGet w "skill_coverage" 0

/-- Skill-depth term (form_team line 153). -/
def depthScore (w : Dict) (required : Finset String) (c : Candidate) : ℚ :=
  get_depth c required * dictGet w "skill_depth" 0

/-- Collaboration term (form_team lines 155-167): a global-degree proxy
for the first member, applied only when the collaboration weight exceeds
5.0, and the count of edges into the partial team afterwards. -/
def collabScore (env : Env) (w : Dict) (st : BState) (c : Candidate) : ℚ :=
  if st.team.length = 0 then
    if dictGet w "collaboration" 0 > 5 then
      ((env.degree c.id : ℚ) / 10) * dictGet w "collaboration" 0
    else 0
  else (get_collab_edges env c.id st.ids : ℚ) * dictGet w "collaboration" 0

/-- Redundancy term (form_team lines 169-171). -/
def redundancyScore (w : Dict) (covered : Finset String) (c : Candidate) : ℚ :=
  ((get_skills c ∩ covered).card : ℚ) * dictGet w "redundancy" 0

/-- Availability term (form_team lines 183-189), computed only when the
availability weight is positive. -/
def hoursScore (env : Env) (w : Dict) (c : Candidate) : ℚ :=
  if dictGet w "availability" 0 > 0 then
    (env.hours c.id / 40) * dictGet w "availability" 0
  else 0

/-- BC penalty term (form_team lines 173-181); the centrality oracle is
consulted only when the bc_penalty weight is nonzero, and its failure
(none) propagates. -/
def bcPenaltyTerm (env : Env) (w : Dict) (c : Candidate) : Option ℚ :=
  let wbc := dictGet w "bc_penalty" 0
  if wbc ≠ 0 then
    (env.bc c.id).map fun bc =>
      if wbc > 0 then (if bc > 1/2 then 50 else bc * 10 * wbc)
      else bc * 10 * wbc
  else some 0

/-- Marginal gain of adding candidate c to beam state st (form_team
lines 146-192). -/
def marginalGain (env : Env) (w : Dict) (required : Finset String)
    (st : BState) (c : Candidate) : Option ℚ :=
  (bcPenaltyTerm env w c).map fun bcp =>
    coverageScore w required st.covered c + depthScore w required c +
      collabScore env w st c + redundancyScore w st.covered c +
      hoursScore env w c - bcp

/-- Successor beam state (form_team lines 194-202). -/
def mkNext (required : Finset String) (st : BState) (c : Candidate) (g : ℚ) : BState :=
  ⟨st.team ++ [c], insert c.id st.ids, st.covered ∪ (get_skills c ∩ required),
   st.score + g⟩

/-- Expansion of one beam state with every eligible candidate, in pool
order (form_team lines 137-202). -/
def expandState (env : Env) (w : Dict) (required : Finset String) (st : BState) :
    List Candidate → Option (List BState)
  | [] => some []
  | c :: cs =>
    if c.id ∈ st.ids then expandState env w required st cs
    else
      match marginalGain env w required st c, expandState env w required st cs with
      | some g, some rest => some (mkNext required st c g :: rest)
      | _, _ => none

/-- Expansion of the whole beam, in beam order. -/
def expandBeam (env : Env) (w : Dict) (required : Finset String)
    (cands : List Candidate) : List BState → Option (List BState)
  | [] => some []
  | st :: rest =>
    match expandState env w required st cands, expandBeam env w required cands rest with
    | some xs, some ys => some (xs ++ ys)
    | _, _ => none

/-- Stable insertion preserving descending score order; an element is
placed before the first strictly lower-scoring one. -/
def insertByScore (x : BState) : List BState → List BState
  | [] => [x]
  | y :: ys => if x.score ≥ y.score then x :: y :: ys else y :: insertByScore x ys

/-- Stable descending sort by cumulative score, modelling the Python
stable list sort with reverse=True of form_team line 206. -/
def sortByScoreDesc : List BState → List BState
  | [] => []
  | x :: xs => insertByScore x (sortByScoreDesc xs)

/-- BEAM_WIDTH constant of form_team line 126. -/
def BEAM_WIDTH : ℕ := 10

/-- One beam-search round: expand every state, sort the pool by score
descending and keep the top BEAM_WIDTH states (form_team lines 133-207). -/
def stepRound (env : Env) (w : Dict) (required : Finset String)
    (cands : List Candidate) (beam : List BState) : Option (List BState) :=
  (expandBeam env w required cands beam).map fun pool =>
    (sortByScoreDesc pool).take BEAM_WIDTH

/-- Beam after r rounds, starting from the single empty state. -/
def beamAfter (env : Env) (w : Dict) (required : Finset String)
    (cands : List Candidate) : ℕ → Option (List BState)
  | 0 => some [initState]
  | r + 1 => (beamAfter env w required cands r).bind (stepRound env w required cands)

/-- form_team of SmartTeamFormation (lines 79-250): k beam-search rounds
followed by selection of the best surviving state; an empty beam yields
the empty team.  The returned value is the member list of the best
state; the display-score mutation of lines 215-248 attaches the same
number to every member and is modelled separately by
normalizedTeamScore. -/
def form_team (env : Env) (candidates : List Candidate) (skills_required : List String)
    (k : ℕ) (mode : FormationMode) (custom_weights : Option Dict) :
    Option (List Candidate) :=
  let weights := buildWeights mode custom_weights
  let required := (skills_required.map String.toLower).toFinset
  match beamAfter env weights required candidates k with
  | none => none
  | some [] => some []
  | some (best :: _) => some best.team

/-- Display-score normalization of form_team lines 215-245 (before the
rounding to one decimal): the raw score is rescaled by an estimated
per-slot maximum and clamped into the 0 to 10 range. -/
def normalizedTeamScore (w : Dict) (k : ℕ) (raw : ℚ) : ℚ :=
  let maxCov := dictGet w "skill_coverage" 1 * 1
  let maxDepth := dictGet w "skill_depth" 1 * 5
  let maxCollab := dictGet w "collaboration" 1 * 5
  let maxRed := dictGet w "redundancy" 1 * 1
  let maxAvail := dictGet w "availability" 0 * 1
  let maxPenaltyBonus := if dictGet w "bc_penalty" 0 < 0 then |dictGet w "bc_penalty" 0| else 0
  let maxPerPerson0 := maxCov + maxDepth + maxCollab + maxRed + maxAvail + maxPenaltyBonus
  let maxPerPerson := if maxPerPerson0 = 0 then 1 else maxPerPerson0
  let maxTotal := maxPerPerson * k
  max 0 (min 10 (raw / maxTotal * 10))

/-!
Embedding of backend/app/linchpin_detector.py.
-/

/-- RiskLevel from linchpin_detector.py. -/
inductive RiskLevel where
  | critical
  | high
  | medium
  | low
deriving DecidableEq, Repr

/-- Environment of database query results used by LinchpinDetector:
nodes are the employee ids, edge the stored TRABAJO_CON relation
(symmetrised by the undirected Cypher match, self relations excluded by
the id comparison of the edge query), bc_synthetic the manually set
override score (coalesced to 0), evidence the count of authored github
evidence items, and skillsOf the skill names of an employee. -/
structure DetectorEnv where
  nodes : Finset String
  edge : String → String → Bool
  bc_synthetic : String → ℚ
  evidence : String → ℕ
  skillsOf : String → List String

/-- Adjacency of the collaboration graph built by
compute_betweenness_centrality: the undirected simple graph whose edges
are the stored TRABAJO_CON relations in either direction. -/
def adjB (env : DetectorEnv) (u v : String) : Bool :=
  decide (u ≠ v) && (env.edge u v || env.edge v u)

/-- Number of walks of the given length between two nodes of the
collaboration graph (intermediate nodes range over the node set). -/
def walkCount (env : DetectorEnv) : ℕ → String → String → ℕ
  | 0, s, t => if s = t then 1 else 0
  | ℓ + 1, s, t => ∑ u ∈ env.nodes, if adjB env s u then walkCount env ℓ u t else 0

/-- Shortest-path distance between two nodes: the least positive walk
length admitting a walk (a minimum-length walk is a shortest path); none
when the nodes are disconnected.  Path lengths are bounded by the node
count. -/
def distBetween (env : DetectorEnv) (s t : String) : Option ℕ :=
  if s = t then some 0
  else (List.range' 1 env.nodes.card).find? fun ℓ => decide (0 < walkCount env ℓ s t)

/-- Number of shortest paths between two nodes (0 when disconnected). -/
def sigma (env : DetectorEnv) (s t : String) : ℕ :=
  match distBetween env s t with
  | some d => walkCount env d s t
  | none => 0

/-- Number of shortest paths from s to t passing through v, by the
Brandes counting identity: shortest s-v paths times shortest v-t paths
when the distances add up, else 0. -/
def throughCount (env : DetectorEnv) (s v t : String) : ℕ :=
  match distBetween env s v with
  | none => 0
  | some a =>
    match distBetween env v t with
    | none => 0
    | some b =>
      match distBetween env s t with
      | none => 0
      | some c =>
        if a + b = c then walkCount env a s v * walkCount env b v t else 0

/-- Unnormalized betweenness of a node: the pair-dependency sum over
ordered pairs of distinct endpoints different from the node. -/
def bcRaw (env : DetectorEnv) (v : String) : ℚ :=
  ∑ s ∈ env.nodes.erase v, ∑ t ∈ (env.nodes.erase v).erase s,
    (throughCount env s v t : ℚ) / (sigma env s t : ℚ)

/-- Normalized betweenness centrality as computed by the networkx call
of compute_betweenness_centrality (Brandes, normalized=True, undirected
graph): the ordered-pair dependency sum divided by (n-1)(n-2).  For n at
most 2 both the sum and the denominator are zero and the result is 0,
as in networkx. -/
def brandes_bc (env : DetectorEnv) (v : String) : ℚ :=
  bcRaw env v / (((env.nodes.card - 1) * (env.nodes.card - 2) : ℕ) : ℚ)

/-- Score dictionary keyed by employee id: a domain of keys and a value
function.  Lookups model Python dict.get(id, default). -/
structure ScoreMap where
  dom : Finset String
  val : String → ℚ

/-- Lookup in a score dictionary with a default, as dict.get. -/
def ScoreMap.getD (m : ScoreMap) (id : String) (d : ℚ) : ℚ :=
  if id ∈ m.dom then m.val id else d

/-- Empty score dictionary (the initial _bc_cache). -/
def emptyScores : ScoreMap := ⟨∅, fun _ => 0⟩

/-- Combined centrality dictionary computed by
compute_betweenness_centrality on a nonempty graph: every employee maps
to the maximum of the Brandes score and the synthetic override. -/
def bcMap (env : DetectorEnv) : ScoreMap :=
  ⟨env.nodes, fun e => max (brandes_bc env e) (env.bc_synthetic e)⟩

/-- compute_betweenness_centrality of LinchpinDetector (lines 45-86),
with the _bc_cache instance state passed explicitly: a truthy (nonempty)
cache is returned unchanged, an empty node set yields an empty result
without touching the cache, and otherwise the combined map is computed
and becomes the new cache.  The networkx ImportError fallback and the
provenance write of bc_combined are not modelled. -/
def compute_betweenness_centrality (env : DetectorEnv) (cache : ScoreMap) :
    ScoreMap × ScoreMap :=
  if cache.dom ≠ ∅ then (cache, cache)
  else if env.nodes = ∅ then (emptyScores, cache)
  else (bcMap env, bcMap env)

/-- _compute_project_dependency_score of LinchpinDetector (lines
88-116): employees with at least one authored github evidence item get
their count divided by the population maximum (floored at 1); the
dictionary has no other keys. -/
def compute_project_dependency_score (env : DetectorEnv) : ScoreMap :=
  let dom := env.nodes.filter fun e => 0 < env.evidence e
  let maxProj : ℕ := max 1 (dom.sup env.evidence)
  ⟨dom, fun e => (env.evidence e : ℚ) / (maxProj : ℚ)⟩

/-- compute_combined_risk_score of LinchpinDetector (lines 118-140):
half network centrality plus half project dependency over the union of
both key sets, threading the centrality cache.  The provenance write of
linchpin_score is not modelled. -/
def compute_combined_risk_score (env : DetectorEnv) (cache : ScoreMap) :
    ScoreMap × ScoreMap :=
  let net := compute_betweenness_centrality env cache
  let proj := compute_project_dependency_score env
  (⟨net.1.dom ∪ proj.dom,
    fun e => net.1.getD e 0 * (1/2) + proj.getD e 0 * (1/2)⟩, net.2)

/-- get_risk_level of LinchpinDetector (lines 142-150). -/
def get_risk_level (bc : ℚ) : RiskLevel :=
  if bc > 7/10 then .critical
  else if bc > 1/2 then .high
  else if bc > 1/4 then .medium
  else .low

/-- Lower-cased skill set of a team member as read by
calculate_team_bus_factor (lines 255-263). -/
def member_skills (env : DetectorEnv) (tid : String) : Finset String :=
  ((env.skillsOf tid).map String.toLower).toFinset

/-- Set of team members covering a skill (the skill_coverage dict of
calculate_team_bus_factor lines 265-270, whose keys are the required
skills covered by at least one member). -/
def skillCoverage (env : DetectorEnv) (team_ids : List String) (sk : String) :
    Finset String :=
  team_ids.toFinset.filter fun tid => sk ∈ member_skills env tid

/-- Required skills having at least one covering member: the key set of
the skill_coverage dict. -/
def coveredRequired (env : DetectorEnv) (team_ids : List String)
    (required : Finset String) : Finset String :=
  required.filter fun sk => skillCoverage env team_ids sk ≠ ∅

/-- Damage of removing a member: the number of covered required skills
whose covering members are all removed or the member itself
(calculate_team_bus_factor lines 279-283). -/
def removalDamage (env : DetectorEnv) (team_ids : List String)
    (required removed : Finset String) (tid : String) : ℕ :=
  ((coveredRequired env team_ids required).filter fun sk =>
    ((skillCoverage env team_ids sk \ removed) \ ({tid} : Finset String)) = ∅).card

/-- Most damaging remaining member, first maximal one in team order and
only with strictly positive damage (calculate_team_bus_factor lines
278-289, worst_damage starting at 0 with a strict comparison). -/
def findWorst (env : DetectorEnv) (team_ids : List String)
    (required removed : Finset String) : Option String :=
  (team_ids.foldl (fun acc tid =>
    if tid ∈ removed then acc
    else if removalDamage env team_ids required removed tid > acc.2 then
      (some tid, removalDamage env team_ids required removed tid)
    else acc) ((none : Option String), 0)).1

/-- Greedy removal loop of calculate_team_bus_factor (lines 272-297),
with the iteration count of the Python range loop as fuel: stop when no
remaining member has positive damage, otherwise remove the worst member
and stop once more than half of the required skills have lost all
coverage. -/
def busLoop (env : DetectorEnv) (team_ids : List String) (required : Finset String) :
    ℕ → Finset String → ℕ → List String → ℕ × List String
  | 0, _, bf, crit => (bf, crit)
  | fuel + 1, removed, bf, crit =>
    match findWorst env team_ids required removed with
    | none => (bf, crit)
    | some worst =>
      let removed2 := insert worst removed
      let lost := ((coveredRequired env team_ids required).filter fun sk =>
        skillCoverage env team_ids sk \ removed2 = ∅).card
      if (lost : ℚ) > (required.card : ℚ) * (1/2) then (bf + 1, crit ++ [worst])
      else busLoop env team_ids required fuel removed2 (bf + 1) (crit ++ [worst])

/-- calculate_team_bus_factor of LinchpinDetector (lines 248-299):
greedy removal count and the removed (critical) members. -/
def calculate_team_bus_factor (env : DetectorEnv) (team_ids : List String)
    (skills : List String) : ℕ × List String :=
  let required := (skills.map String.toLower).toFinset
  busLoop env team_ids required team_ids.length ∅ 0 []

/-!
Concrete fixtures used by counterexamples and witnesses.
-/

/-- Structural invariant of a beam state: the member-id list is
duplicate-free, the id set is exactly the set of member ids, and the
covered set stays inside the required set (C7). -/
def BeamInv (required : Finset String) (st : BState) : Prop :=
  (st.team.map Candidate.id).Nodup ∧
  st.ids = (st.team.map Candidate.id).toFinset ∧
  st.covered ⊆ required

/-- Full invariant after r rounds: the structural invariant, ids drawn
from the candidate pool, and a team of exactly r members. -/
def RoundInv (required allIds : Finset String) (r : ℕ) (st : BState) : Prop :=
  BeamInv required st ∧ st.ids ⊆ allIds ∧ st.team.length = r

/-- Candidate a with skill python at level 5. -/
def candA : Candidate := ⟨"a", [⟨some "python", some 5⟩]⟩

/-- Candidate b with skill python at level 5. -/
def candB : Candidate := ⟨"b", [⟨some "python", some 5⟩]⟩

/-- Optimizer environment with no collaborations, no hours and a total
zero centrality oracle. -/
def envZero : Env := ⟨fun _ _ => false, fun _ => 0, fun _ => 0, fun _ => some 0⟩

/-- Optimizer environment in which candidates a and b both carry a risk
score above the 0.5 flat-penalty cap (0.9 and 0.6). -/
def envHighRisk : Env :=
  { envZero with
    bc := fun i => if i = "a" then some (9/10) else if i = "b" then some (6/10) else some 0 }

/-- Optimizer environment in which candidates a and b carry risk scores
below the cap (0.4 and 0.1). -/
def envLowRisk : Env :=
  { envZero with
    bc := fun i => if i = "a" then some (4/10) else if i = "b" then some (1/10) else some 0 }

/-- Detector environment of four employees without collaborations or
evidence: r1, r2 and u1 know python and sql, u2 knows only sql. -/
def envTeams : DetectorEnv :=
  { nodes := {"r1", "r2", "u1", "u2"}
    edge := fun _ _ => false
    bc_synthetic := fun _ => 0
    evidence := fun _ => 0
    skillsOf := fun i =>
      if i = "r1" then ["Python", "SQL"]
      else if i = "r2" then ["Python", "SQL"]
      else if i = "u1" then ["Python", "SQL"]
      else if i = "u2" then ["SQL"]
      else [] }

/-- Detector environment of two employees without collaboration edges
or evidence, employee x carrying a synthetic override score of 0.8. -/
def envOverride : DetectorEnv :=
  { nodes := {"x", "y"}
    edge := fun _ _ => false
    bc_synthetic := fun i => if i = "x" then 8/10 else 0
    evidence := fun _ => 0
    skillsOf := fun _ => [] }

/-- Detector environment of two isolated employees without synthetic
overrides or evidence. -/
def envIso : DetectorEnv :=
  { nodes := {"x", "y"}
    edge := fun _ _ => false
    bc_synthetic := fun _ => 0
    evidence := fun _ => 0
    skillsOf := fun _ => [] }

/-- Beam reached after one performance-mode round on the pool of
candidates a and b with required skill python: both one-member teams,
each scoring 18 (coverage 3 plus depth 15). -/
def wBeam1 : List BState :=
  [⟨[candA], {"a"}, {"python"}, 18⟩, ⟨[candB], {"b"}, {"python"}, 18⟩]

/-!
Helper lemmas about weight dictionaries.
-/

lemma dictGet_cons_ne {k1 k : String} (v1 : ℚ) (d : Dict) (v : ℚ) (h : k1 ≠ k) :
    dictGet ((k1, v1) :: d) k v = dictGet d k v := by
  simp [dictGet, h]

lemma dictGet_cons_self {k1 k : String} (v1 : ℚ) (d : Dict) (v : ℚ) (h : k1 = k) :
    dictGet ((k1, v1) :: d) k v = v1 := by
  simp [dictGet, h]

lemma dictGet_of_not_hasKey {d : Dict} {k : String} (v : ℚ)
    (h : dictHasKey d k = false) : dictGet d k v = v := by
  induction d with
  | nil => rfl
  | cons p d ih =>
    obtain ⟨k1, v1⟩ := p
    by_cases hk : k1 = k
    · simp [dictHasKey, hk] at h
    · rw [dictGet_cons_ne v1 d v hk]
      apply ih
      simpa [dictHasKey, hk] using h

/-- The weight dictionary built by form_team never contains an
availability key. -/
lemma buildWeights_no_availability (mode : FormationMode) (cw : Option Dict) :
    dictHasKey (buildWeights mode cw) "availability" = false := by
  rcases cw with _ | cw
  · cases mode <;> decide
  · by_cases hcw : cw.isEmpty
    · simp only [buildWeights, hcw, if_true]
      cases mode <;> decide
    · simp only [buildWeights, hcw, if_false, Bool.false_eq_true]
      simp [dictHasKey]

/-- The effective availability weight of form_team is always 0. -/
lemma buildWeights_availability_zero (mode : FormationMode) (cw : Option Dict) :
    dictGet (buildWeights mode cw) "availability" 0 = 0 :=
  dictGet_of_not_hasKey 0 (buildWeights_no_availability mode cw)

/-- The availability score term is 0 under any weight dictionary built
by form_team. -/
lemma hoursScore_buildWeights (env : Env) (mode : FormationMode) (cw : Option Dict)
    (c : Candidate) : hoursScore env (buildWeights mode cw) c = 0 := by
  unfold hoursScore
  rw [buildWeights_availability_zero]
  simp

/-!
Congruence of the beam search in the environment: the search depends on
the environment only through the marginal-gain computation.
-/

lemma expandState_congr {env1 env2 : Env} {w : Dict} {required : Finset String}
    (H : ∀ st c, marginalGain env1 w required st c = marginalGain env2 w required st c) :
    ∀ (cs : List Candidate) (st : BState),
      expandState env1 w required st cs = expandState env2 w required st cs := by
  intro cs
  induction cs with
  | nil => intro st; rfl
  | cons c cs ih =>
    intro st
    simp only [expandState, ih st, H st c]

lemma expandBeam_congr {env1 env2 : Env} {w : Dict} {required : Finset String}
    {cands : List Candidate}
    (H : ∀ st c, marginalGain env1 w required st c = marginalGain env2 w required st c) :
    ∀ beam : List BState,
      expandBeam env1 w required cands beam = expandBeam env2 w required cands beam := by
  intro beam
  induction beam with
  | nil => rfl
  | cons st rest ih =>
    simp only [expandBeam, expandState_congr H cands st, ih]

lemma beamAfter_congr {env1 env2 : Env} {w : Dict} {required : Finset String}
    {cands : List Candidate}
    (H : ∀ st c, marginalGain env1 w required st c = marginalGain env2 w required st c) :
    ∀ r : ℕ, beamAfter env1 w required cands r = beamAfter env2 w required cands r := by
  intro r
  induction r with
  | zero => rfl
  | succ r ih =>
    simp only [beamAfter, ih, stepRound, expandBeam_congr H]

lemma form_team_congr {env1 env2 : Env} {cands : List Candidate}
    {req : List String} {k : ℕ} {mode : FormationMode} {cw : Option Dict}
    (H : ∀ st c, marginalGain env1 (buildWeights mode cw)
        ((req.map String.toLower).toFinset) st c =
      marginalGain env2 (buildWeights mode cw) ((req.map String.toLower).toFinset) st c) :
    form_team env1 cands req k mode cw = form_team env2 cands req k mode cw := by
  simp only [form_team]
  rw [beamAfter_congr H]

/-!
Totality of the beam search: the only failure source is a consulted
betweenness oracle.
-/

lemma marginalGain_isSome {env : Env} {w : Dict} {required : Finset String}
    {st : BState} {c : Candidate}
    (h : dictGet w "bc_penalty" 0 = 0 ∨ (env.bc c.id).isSome) :
    (marginalGain env w required st c).isSome := by
  unfold marginalGain bcPenaltyTerm
  rcases h with h | h
  · simp [h]
  · by_cases hz : dictGet w "bc_penalty" 0 ≠ 0
    · obtain ⟨b, hb⟩ := Option.isSome_iff_exists.mp h
      simp [hz, hb]
    · simp [hz]

lemma expandState_isSome {env : Env} {w : Dict} {required : Finset String}
    {st : BState} {cs : List Candidate}
    (h : ∀ c ∈ cs, dictGet w "bc_penalty" 0 = 0 ∨ (env.bc c.id).isSome) :
    (expandState env w required st cs).isSome := by
  induction cs with
  | nil => simp [expandState]
  | cons c cs ih =>
    have hc := h c (List.mem_cons_self c cs)
    have hcs : ∀ x ∈ cs, dictGet w "bc_penalty" 0 = 0 ∨ (env.bc x.id).isSome :=
      fun x hx => h x (List.mem_cons_of_mem c hx)
    simp only [expandState]
    by_cases hm : c.id ∈ st.ids
    · simp only [if_pos hm]
      exact ih hcs
    · simp only [if_neg hm]
      obtain ⟨g, hg⟩ := Option.isSome_iff_exists.mp (marginalGain_isSome hc)
      obtain ⟨rest, hrest⟩ := Option.isSome_iff_exists.mp (ih hcs)
      rw [hg, hrest]
      rfl

lemma expandBeam_isSome {env : Env} {w : Dict} {required : Finset String}
    {cands : List Candidate} {beam : List BState}
    (h : ∀ c ∈ cands, dictGet w "bc_penalty" 0 = 0 ∨ (env.bc c.id).isSome) :
    (expandBeam env w required cands beam).isSome := by
  induction beam with
  | nil => simp [expandBeam]
  | cons st rest ih =>
    simp only [expandBeam]
    obtain ⟨xs, hxs⟩ := Option.isSome_iff_exists.mp
      (@expandState_isSome env w required st cands h)
    obtain ⟨ys, hys⟩ := Option.isSome_iff_exists.mp ih
    rw [hxs, hys]
    rfl

lemma beamAfter_isSome {env : Env} {w : Dict} {required : Finset String}
    {cands : List Candidate}
    (h : ∀ c ∈ cands, dictGet w "bc_penalty" 0 = 0 ∨ (env.bc c.id).isSome) :
    ∀ r : ℕ, (beamAfter env w required cands r).isSome := by
  intro r
  induction r with
  | zero => simp [beamAfter]
  | succ r ih =>
    obtain ⟨b, hb⟩ := Option.isSome_iff_exists.mp ih
    simp only [beamAfter, hb, Option.some_bind, stepRound]
    obtain ⟨pool, hpool⟩ := Option.isSome_iff_exists.mp
      (@expandBeam_isSome env w required cands b h)
    rw [hpool]
    rfl

lemma form_team_isSome {env : Env} {cands : List Candidate} {req : List String}
    {k : ℕ} {mode : FormationMode} {cw : Option Dict}
    (h : ∀ c ∈ cands, dictGet (buildWeights mode cw) "bc_penalty" 0 = 0 ∨
      (env.bc c.id).isSome) :
    (form_team env cands req k mode cw).isSome := by
  simp only [form_team]
  obtain ⟨b, hb⟩ := Option.isSome_iff_exists.mp
    (@beamAfter_isSome env (buildWeights mode cw) ((req.map String.toLower).toFinset)
      cands h k)
  rw [hb]
  cases b <;> rfl

/-!
Invariants of the beam states.
-/

lemma roundInv_init (required allIds : Finset String) :
    RoundInv required allIds 0 initState := by
  refine ⟨⟨?_, ?_, ?_⟩, ?_, ?_⟩ <;> simp [initState]

lemma roundInv_mkNext {required allIds : Finset String} {r : ℕ} {st : BState}
    {c : Candidate} (g : ℚ) (hst : RoundInv required allIds r st)
    (hc : c.id ∈ allIds) (hnot : c.id ∉ st.ids) :
    RoundInv required allIds (r + 1) (mkNext required st c g) := by
  obtain ⟨⟨hnodup, hids, hcov⟩, hsub, hlen⟩ := hst
  have hnotl : c.id ∉ st.team.map Candidate.id := by
    intro hmem
    exact hnot (hids ▸ List.mem_toFinset.mpr hmem)
  refine ⟨⟨?_, ?_, ?_⟩, ?_, ?_⟩
  · have h2 : ∀ x ∈ st.team, ¬ x.id = c.id := by
      intro x hx he
      exact hnotl (he ▸ List.mem_map_of_mem Candidate.id hx)
    simpa [mkNext, List.nodup_append] using ⟨hnodup, h2⟩
  · simp only [mkNext, List.map_append, List.map_cons, List.map_nil,
      List.toFinset_append, List.toFinset_cons, List.toFinset_nil]
    rw [hids]
    ext a
    simp [or_comm]
  · simp only [mkNext]
    exact Finset.union_subset hcov (Finset.inter_subset_right)
  · simp only [mkNext]
    exact Finset.insert_subset hc hsub
  · simp [mkNext, hlen]

lemma expandState_inv {env : Env} {w : Dict} {required allIds : Finset String}
    {r : ℕ} {st : BState} :
    ∀ {cs : List Candidate} {xs : List BState},
      RoundInv required allIds r st → (∀ c ∈ cs, c.id ∈ allIds) →
      expandState env w required st cs = some xs →
      ∀ x ∈ xs, RoundInv required allIds (r + 1) x := by
  intro cs
  induction cs with
  | nil =>
    intro xs _ _ hx
    simp only [expandState, Option.some_inj] at hx
    subst hx
    intro x hx
    exact absurd hx (List.not_mem_nil x)
  | cons c cs ih =>
    intro xs hst hmem hx
    simp only [expandState] at hx
    by_cases hc : c.id ∈ st.ids
    · rw [if_pos hc] at hx
      exact ih hst (fun d hd => hmem d (List.mem_cons_of_mem c hd)) hx
    · rw [if_neg hc] at hx
      cases hg : marginalGain env w required st c with
      | none => rw [hg] at hx; exact absurd hx (by simp)
      | some g =>
        rw [hg] at hx
        cases hrest : expandState env w required st cs with
        | none => rw [hrest] at hx; exact absurd hx (by simp)
        | some rest =>
          rw [hrest] at hx
          simp only [Option.some_inj] at hx
          subst hx
          intro x hxmem
          rcases List.mem_cons.mp hxmem with hhead | htail
          · subst hhead
            exact roundInv_mkNext g hst (hmem c (List.mem_cons_self c cs)) hc
          · exact ih hst (fun d hd => hmem d (List.mem_cons_of_mem c hd)) hrest x htail

lemma expandBeam_inv {env : Env} {w : Dict} {required allIds : Finset String}
    {r : ℕ} {cands : List Candidate} :
    ∀ {beam : List BState} {pool : List BState},
      (∀ st ∈ beam, RoundInv required allIds r st) → (∀ c ∈ cands, c.id ∈ allIds) →
      expandBeam env w required cands beam = some pool →
      ∀ x ∈ pool, RoundInv required allIds (r + 1) x := by
  intro beam
  induction beam with
  | nil =>
    intro pool _ _ hp
    simp only [expandBeam, Option.some_inj] at hp
    subst hp
    intro x hx
    exact absurd hx (List.not_mem_nil x)
  | cons st rest ih =>
    intro pool hinv hmem hp
    simp only [expandBeam] at hp
    cases hxs : expandState env w required st cands with
    | none => rw [hxs] at hp; exact absurd hp (by simp)
    | some xs =>
      rw [hxs] at hp
      cases hys : expandBeam env w required cands rest with
      | none => rw [hys] at hp; exact absurd hp (by simp)
      | some ys =>
        rw [hys] at hp
        simp only [Option.some_inj] at hp
        subst hp
        intro x hx
        rcases List.mem_append.mp hx with hx1 | hx2
        · exact expandState_inv (hinv st (List.mem_cons_self st rest)) hmem hxs x hx1
        · exact ih (fun s hs => hinv s (List.mem_cons_of_mem st hs)) hmem hys x hx2

lemma mem_insertByScore {x y : BState} : ∀ {l : List BState},
    x ∈ insertByScore y l → x = y ∨ x ∈ l := by
  intro l
  induction l with
  | nil => intro h; simpa [insertByScore] using h
  | cons z zs ih =>
    intro h
    simp only [insertByScore] at h
    by_cases hc : y.score ≥ z.score
    · rw [if_pos hc] at h
      simpa using h
    · rw [if_neg hc] at h
      rcases List.mem_cons.mp h with hz | hrec
      · exact Or.inr (hz ▸ List.mem_cons_self z zs)
      · rcases ih hrec with h1 | h2
        · exact Or.inl h1
        · exact Or.inr (List.mem_cons_of_mem z h2)

lemma mem_sortByScoreDesc {x : BState} : ∀ {l : List BState},
    x ∈ sortByScoreDesc l → x ∈ l := by
  intro l
  induction l with
  | nil => intro h; simp [sortByScoreDesc] at h
  | cons z zs ih =>
    intro h
    simp only [sortByScoreDesc] at h
    rcases mem_insertByScore h with h1 | h2
    · exact h1 ▸ List.mem_cons_self z zs
    · exact List.mem_cons_of_mem z (ih h2)

lemma stepRound_inv {env : Env} {w : Dict} {required allIds : Finset String}
    {r : ℕ} {cands : List Candidate} {beam beam2 : List BState}
    (hinv : ∀ st ∈ beam, RoundInv required allIds r st)
    (hmem : ∀ c ∈ cands, c.id ∈ allIds)
    (hstep : stepRound env w required cands beam = some beam2) :
    ∀ st ∈ beam2, RoundInv required allIds (r + 1) st := by
  simp only [stepRound] at hstep
  cases hpool : expandBeam env w required cands beam with
  | none => rw [hpool] at hstep; exact absurd hstep (by simp)
  | some pool =>
    rw [hpool] at hstep
    simp at hstep
    subst hstep
    intro st hst
    have hst2 : st ∈ sortByScoreDesc pool := List.take_subset _ _ hst
    exact expandBeam_inv hinv hmem hpool st (mem_sortByScoreDesc hst2)

/-- Every beam produced by the search consists of states satisfying the
full invariant for their round number. -/
lemma beamAfter_inv {env : Env} {w : Dict} {required : Finset String}
    {cands : List Candidate} :
    ∀ {r : ℕ} {beamr : List BState},
      beamAfter env w required cands r = some beamr →
      ∀ st ∈ beamr, RoundInv required ((cands.map Candidate.id).toFinset) r st := by
  have hmem : ∀ c ∈ cands, c.id ∈ (cands.map Candidate.id).toFinset := by
    intro c hc
    exact List.mem_toFinset.mpr (List.mem_map_of_mem Candidate.id hc)
  intro r
  induction r with
  | zero =>
    intro beamr h
    simp only [beamAfter, Option.some_inj] at h
    subst h
    intro st hst
    rcases List.mem_cons.mp hst with h1 | h2
    · exact h1 ▸ roundInv_init _ _
    · exact absurd h2 (List.not_mem_nil st)
  | succ r ih =>
    intro beamr h
    simp only [beamAfter] at h
    cases hb : beamAfter env w required cands r with
    | none => rw [hb] at h; exact absurd h (by simp)
    | some b =>
      rw [hb] at h
      simp only [Option.some_bind] at h
      exact stepRound_inv (ih hb) hmem h

/-!
Pool exhaustion: once every beam state contains every candidate id, the
round produces an empty pool and the beam stays empty.
-/

lemma roundInv_ids_card {required allIds : Finset String} {r : ℕ} {st : BState}
    (h : RoundInv required allIds r st) : st.ids.card = r := by
  obtain ⟨⟨hnodup, hids, _⟩, _, hlen⟩ := h
  rw [hids, List.toFinset_card_of_nodup hnodup, List.length_map, hlen]

lemma expandState_all_skip {env : Env} {w : Dict} {required : Finset String}
    {st : BState} : ∀ {cs : List Candidate}, (∀ c ∈ cs, c.id ∈ st.ids) →
    expandState env w required st cs = some [] := by
  intro cs
  induction cs with
  | nil => intro _; rfl
  | cons c cs ih =>
    intro h
    simp only [expandState, if_pos (h c (List.mem_cons_self c cs))]
    exact ih fun d hd => h d (List.mem_cons_of_mem c hd)

lemma expandBeam_of_full {env : Env} {w : Dict} {required : Finset String}
    {cands : List Candidate} : ∀ {beam : List BState},
    (∀ st ∈ beam, ∀ c ∈ cands, c.id ∈ st.ids) →
    expandBeam env w required cands beam = some [] := by
  intro beam
  induction beam with
  | nil => intro _; rfl
  | cons st rest ih =>
    intro h
    simp only [expandBeam,
      expandState_all_skip (h st (List.mem_cons_self st rest)),
      ih fun s hs => h s (List.mem_cons_of_mem st hs)]
    rfl

lemma stepRound_of_full {env : Env} {w : Dict} {required : Finset String}
    {cands : List Candidate} {beam : List BState}
    (h : ∀ st ∈ beam, ∀ c ∈ cands, c.id ∈ st.ids) :
    stepRound env w required cands beam = some [] := by
  simp only [stepRound, expandBeam_of_full h]
  rfl

lemma beamAfter_empty_stable {env : Env} {w : Dict} {required : Finset String}
    {cands : List Candidate} {r : ℕ}
    (h : beamAfter env w required cands r = some []) :
    ∀ j : ℕ, beamAfter env w required cands (r + j) = some [] := by
  intro j
  induction j with
  | zero => exact h
  | succ j ih =>
    have : r + (j + 1) = (r + j) + 1 := by omega
    rw [this]
    simp only [beamAfter, ih, Option.some_bind]
    exact stepRound_of_full fun st hst => absurd hst (List.not_mem_nil st)

/-!
Claims.
-/

/-- C1 (amended): when the pool holds fewer than k distinct candidate
ids (in particular a non-empty pool of fewer than k candidates) and the
centrality oracle is total, form_team returns the empty list: once every
beam state holds every pool id, the round produces no expansions, the
beam becomes and stays empty, and the empty-beam branch returns [] -
partial teams are discarded, not returned. -/
theorem form_team_short_pool_empty (env : Env) (cands : List Candidate)
    (req : List String) (k : ℕ) (mode : FormationMode) (cw : Option Dict)
    (hk : ((cands.map Candidate.id).toFinset).card < k)
    (hbc : ∀ i, (env.bc i).isSome) :
    form_team env cands req k mode cw = some [] := by
  have htotal : ∀ c ∈ cands,
      dictGet (buildWeights mode cw) "bc_penalty" 0 = 0 ∨ (env.bc c.id).isSome :=
    fun c _ => Or.inr (hbc c.id)
  obtain ⟨bm, hbm⟩ := Option.isSome_iff_exists.mp
    (@beamAfter_isSome env (buildWeights mode cw) ((req.map String.toLower).toFinset)
      cands htotal ((cands.map Candidate.id).toFinset).card)
  have hfull : ∀ st ∈ bm, ∀ c ∈ cands, c.id ∈ st.ids := by
    intro st hst c hc
    have hinv := beamAfter_inv hbm st hst
    have hcard : st.ids.card = ((cands.map Candidate.id).toFinset).card :=
      roundInv_ids_card hinv
    have hse : st.ids = (cands.map Candidate.id).toFinset :=
      Finset.eq_of_subset_of_card_le hinv.2.1 (le_of_eq hcard.symm)
    rw [hse]
    exact List.mem_toFinset.mpr (List.mem_map_of_mem Candidate.id hc)
  have h1 : beamAfter env (buildWeights mode cw) ((req.map String.toLower).toFinset)
      cands (((cands.map Candidate.id).toFinset).card + 1) = some [] := by
    simp only [beamAfter, hbm, Option.some_bind]
    exact stepRound_of_full hfull
  have h2 : beamAfter env (buildWeights mode cw) ((req.map String.toLower).toFinset)
      cands k = some [] := by
    have hk2 : k = (((cands.map Candidate.id).toFinset).card + 1) +
        (k - (((cands.map Candidate.id).toFinset).card + 1)) := by omega
    rw [hk2]
    exact beamAfter_empty_stable h1 _
  simp only [form_team]
  rw [h2]

/-- C1 counterexample: a pool of one candidate with k = 2 yields the
empty team, not a non-empty team of the pool size, refuting the claim
that the best partial team is returned. -/
theorem form_team_short_pool_counterexample :
    ([candA] : List Candidate).length = 1 ∧
    form_team envZero [candA] ["python"] 2 .performance none = some [] :=
  ⟨by decide, by with_unfolding_all rfl⟩

/-- Witness for C1 at a concrete short pool. -/
theorem form_team_short_pool_witness :
    form_team envZero [candA] ["python"] 2 .performance none = some [] :=
  form_team_short_pool_empty envZero [candA] ["python"] 2 .performance none
    (by decide) (fun i => rfl)

/-- C7: every beam state reached by form_team keeps its member list
duplicate-free with the id set equal to the member-id set and the
covered set inside the lower-cased required set, with at most r members
after r rounds; consequently every returned team has at most k members,
all with pairwise distinct identifiers. -/
theorem form_team_size_and_distinct (env : Env) (cands : List Candidate)
    (req : List String) (k : ℕ) (mode : FormationMode) (cw : Option Dict) :
    (∀ (r : ℕ) (beamr : List BState),
        beamAfter env (buildWeights mode cw) ((req.map String.toLower).toFinset)
          cands r = some beamr →
        ∀ st ∈ beamr,
          BeamInv ((req.map String.toLower).toFinset) st ∧ st.team.length ≤ r) ∧
    (∀ team : List Candidate, form_team env cands req k mode cw = some team →
        team.length ≤ k ∧ (team.map Candidate.id).Nodup) := by
  constructor
  · intro r beamr h st hst
    have hinv := beamAfter_inv h st hst
    exact ⟨hinv.1, le_of_eq hinv.2.2⟩
  · intro team hteam
    simp only [form_team] at hteam
    cases hb : beamAfter env (buildWeights mode cw)
        ((req.map String.toLower).toFinset) cands k with
    | none => rw [hb] at hteam; exact absurd hteam (by simp)
    | some b =>
      rw [hb] at hteam
      cases b with
      | nil =>
        simp only [Option.some_inj] at hteam
        subst hteam
        exact ⟨by simp, by simp⟩
      | cons best rest =>
        simp only [Option.some_inj] at hteam
        subst hteam
        have hinv := beamAfter_inv hb best (List.mem_cons_self best rest)
        exact ⟨le_of_eq hinv.2.2, hinv.1.1⟩

/-- Witness for C7: the concrete beam after one round and a concrete
returned team. -/
theorem form_team_size_witness :
    (BeamInv (((["python"] : List String).map String.toLower).toFinset)
        (⟨[candA], {"a"}, {"python"}, 18⟩ : BState) ∧
      (⟨[candA], {"a"}, {"python"}, 18⟩ : BState).team.length ≤ 1) ∧
    (([candA] : List Candidate).length ≤ 1 ∧
      (([candA] : List Candidate).map Candidate.id).Nodup) :=
  ⟨(form_team_size_and_distinct envZero [candA, candB] ["python"] 1
      .performance none).1 1 wBeam1 (by with_unfolding_all rfl)
      (⟨[candA], {"a"}, {"python"}, 18⟩ : BState) (by simp [wBeam1]),
   (form_team_size_and_distinct envZero [candA, candB] ["python"] 1
      .performance none).2 [candA] (by with_unfolding_all rfl)⟩

/-- C6: get_risk_level classifies with the effective thresholds
0.7, 0.5 and 0.25: CRITICAL exactly above 0.7, HIGH exactly on
(0.5, 0.7], MEDIUM exactly on (0.25, 0.5], LOW exactly at or below
0.25. -/
theorem risk_level_thresholds (s : ℚ) :
    (get_risk_level s = RiskLevel.critical ↔ 7/10 < s) ∧
    (get_risk_level s = RiskLevel.high ↔ 1/2 < s ∧ s ≤ 7/10) ∧
    (get_risk_level s = RiskLevel.medium ↔ 1/4 < s ∧ s ≤ 1/2) ∧
    (get_risk_level s = RiskLevel.low ↔ s ≤ 1/4) := by
  unfold get_risk_level
  split_ifs with h1 h2 h3 <;>
    refine ⟨?_, ?_, ?_, ?_⟩ <;> constructor <;> intro hh <;>
    simp_all <;> linarith

/-- C8: on one detector instance, computing betweenness centrality
twice without mutating the graph data returns the same score mapping;
the second call is served from the instance cache populated by the
first, except on an empty graph, where both calls return the empty
mapping. -/
theorem centrality_idempotent_cache (env : DetectorEnv) :
    (compute_betweenness_centrality env
      (compute_betweenness_centrality env emptyScores).2).1 =
    (compute_betweenness_centrality env emptyScores).1 := by
  by_cases h : env.nodes = ∅
  · simp [compute_betweenness_centrality, emptyScores, h]
  · simp [compute_betweenness_centrality, emptyScores, h, bcMap]

/-- C10: the weight dictionary built by form_team never contains an
availability key, the availability score of every candidate is 0 under
it, and the formed team is independent of the availability hours of the
environment, for every mode and custom profile, including profiles with
a positive availability entry. -/
theorem availability_weight_never_applied (mode : FormationMode) (cw : Option Dict) :
    dictHasKey (buildWeights mode cw) "availability" = false ∧
    (∀ (env : Env) (c : Candidate), hoursScore env (buildWeights mode cw) c = 0) ∧
    (∀ (env : Env) (h1 h2 : String → ℚ) (cands : List Candidate)
        (req : List String) (k : ℕ),
      form_team { env with hours := h1 } cands req k mode cw =
        form_team { env with hours := h2 } cands req k mode cw) := by
  refine ⟨buildWeights_no_availability mode cw,
    fun env c => hoursScore_buildWeights env mode cw c, ?_⟩
  intro env h1 h2 cands req k
  apply form_team_congr
  intro st c
  simp only [marginalGain, hoursScore_buildWeights]
  rfl

/-- C9: when the effective bc_penalty weight is 0, the centrality
oracle is never consulted: the formed team does not depend on the
oracle at all, and the call succeeds even when every centrality lookup
fails. -/
theorem bc_penalty_zero_no_centrality_dependence
    (env : Env) (cands : List Candidate) (req : List String) (k : ℕ)
    (mode : FormationMode) (cw : Option Dict)
    (hz : dictGet (buildWeights mode cw) "bc_penalty" 0 = 0) :
    (∀ f g : String → Option ℚ,
      form_team { env with bc := f } cands req k mode cw =
        form_team { env with bc := g } cands req k mode cw) ∧
    (∀ f : String → Option ℚ,
      (form_team { env with bc := f } cands req k mode cw).isSome) := by
  constructor
  · intro f g
    apply form_team_congr
    intro st c
    simp only [marginalGain, bcPenaltyTerm, hz]
    simp
    rfl
  · intro f
    exact form_team_isSome fun c _ => Or.inl hz

/-- C3 counterexample: a custom profile containing only bc_penalty gets
skill_coverage weight 3 and likewise nonzero fallbacks for depth,
collaboration and redundancy, refuting that missing factors are treated
as weight 0. -/
theorem custom_weights_defaults_counterexample :
    dictGet (buildWeights .performance (some [("bc_penalty", 15)])) "skill_coverage" 0 = 3 ∧
    (0 : ℚ) < dictGet (buildWeights .performance (some [("bc_penalty", 15)])) "skill_coverage" 0 ∧
    dictGet (buildWeights .performance (some [("bc_penalty", 15)])) "skill_depth" 0 = 2 ∧
    dictGet (buildWeights .performance (some [("bc_penalty", 15)])) "collaboration" 0 = 2 ∧
    dictGet (buildWeights .performance (some [("bc_penalty", 15)])) "redundancy" 0 = 3/2 :=
  ⟨by with_unfolding_all rfl, of_decide_eq_true (by with_unfolding_all rfl),
   by with_unfolding_all rfl, by with_unfolding_all rfl, by with_unfolding_all rfl⟩

/-- C3 (amended): for a truthy custom profile, each factor missing from
the profile defaults to its hardcoded fallback - 3 for skill_coverage,
2 for skill_depth, 2 for collaboration, 1.5 for redundancy, 0 for
bc_penalty - availability is always 0, and form_team never raises on a
profile with missing keys (with a total centrality oracle every call
returns a value). -/
theorem custom_weights_missing_keys (cw : Dict) (hne : cw ≠ []) (mode : FormationMode) :
    (dictHasKey cw "skill_coverage" = false →
      dictGet (buildWeights mode (some cw)) "skill_coverage" 0 = 3) ∧
    (dictHasKey cw "skill_depth" = false →
      dictGet (buildWeights mode (some cw)) "skill_depth" 0 = 2) ∧
    (dictHasKey cw "collaboration" = false →
      dictGet (buildWeights mode (some cw)) "collaboration" 0 = 2) ∧
    (dictHasKey cw "redundancy" = false →
      dictGet (buildWeights mode (some cw)) "redundancy" 0 = 3/2) ∧
    (dictHasKey cw "bc_penalty" = false →
      dictGet (buildWeights mode (some cw)) "bc_penalty" 0 = 0) ∧
    dictGet (buildWeights mode (some cw)) "availability" 0 = 0 ∧
    (∀ (env : Env) (cands : List Candidate) (req : List String) (k : ℕ),
      (∀ i, (env.bc i).isSome) →
      (form_team env cands req k mode (some cw)).isSome) := by
  have hE : cw.isEmpty = false := by
    cases cw with
    | nil => exact absurd rfl hne
    | cons a l => rfl
  have hBW : buildWeights mode (some cw) =
      [("skill_coverage", dictGet cw "skill_coverage" 3),
       ("skill_depth", dictGet cw "skill_depth" 2),
       ("collaboration", dictGet cw "collaboration" 2),
       ("redundancy", dictGet cw "redundancy" (3/2)),
       ("bc_penalty", dictGet cw "bc_penalty" 0)] := by
    simp [buildWeights, hE]
  refine ⟨?_, ?_, ?_, ?_, ?_, buildWeights_availability_zero mode (some cw), ?_⟩
  · intro h
    rw [hBW, dictGet_cons_self _ _ _ rfl]
    exact dictGet_of_not_hasKey 3 h
  · intro h
    rw [hBW, dictGet_cons_ne _ _ _ (by decide), dictGet_cons_self _ _ _ rfl]
    exact dictGet_of_not_hasKey 2 h
  · intro h
    rw [hBW, dictGet_cons_ne _ _ _ (by decide), dictGet_cons_ne _ _ _ (by decide),
      dictGet_cons_self _ _ _ rfl]
    exact dictGet_of_not_hasKey 2 h
  · intro h
    rw [hBW, dictGet_cons_ne _ _ _ (by decide), dictGet_cons_ne _ _ _ (by decide),
      dictGet_cons_ne _ _ _ (by decide), dictGet_cons_self _ _ _ rfl]
    exact dictGet_of_not_hasKey (3/2) h
  · intro h
    rw [hBW, dictGet_cons_ne _ _ _ (by decide), dictGet_cons_ne _ _ _ (by decide),
      dictGet_cons_ne _ _ _ (by decide), dictGet_cons_ne _ _ _ (by decide),
      dictGet_cons_self _ _ _ rfl]
    exact dictGet_of_not_hasKey 0 h
  · intro env cands req k hbc
    exact form_team_isSome fun c _ => Or.inr (hbc c.id)

/-- Witness for C3: a profile holding only bc_penalty. -/
theorem custom_weights_missing_keys_witness :
    dictGet (buildWeights .resilient (some [("bc_penalty", 15)])) "skill_coverage" 0 = 3 ∧
    (form_team envZero [candA] ["python"] 1 .resilient
      (some [("bc_penalty", 15)])).isSome :=
  ⟨(custom_weights_missing_keys [("bc_penalty", 15)] (by decide) .resilient).1
      (by decide),
   (custom_weights_missing_keys [("bc_penalty", 15)] (by decide)
      .resilient).2.2.2.2.2.2 envZero [candA] ["python"] 1 (fun i => rfl)⟩

/-!
Lemmas for C5: a node without incident edges has betweenness 0.
-/

lemma adjB_to_isolated {env : DetectorEnv} {X : String}
    (hE : ∀ u, env.edge X u = false ∧ env.edge u X = false) (s : String) :
    adjB env s X = false := by
  unfold adjB
  rcases hE s with ⟨h1, h2⟩
  simp [h1, h2]

lemma walkCount_to_isolated {env : DetectorEnv} {X : String}
    (hE : ∀ u, env.edge X u = false ∧ env.edge u X = false) :
    ∀ (l : ℕ) (s : String), walkCount env (l + 1) s X = 0 := by
  intro l
  induction l with
  | zero =>
    intro s
    simp only [walkCount]
    apply Finset.sum_eq_zero
    intro u hu
    by_cases ha : adjB env s u
    · rw [if_pos ha]
      by_cases hux : u = X
      · subst hux
        rw [adjB_to_isolated hE s] at ha
        exact absurd ha (by simp)
      · simp [walkCount, hux]
    · rw [if_neg ha]
  | succ l ih =>
    intro s
    simp only [walkCount]
    apply Finset.sum_eq_zero
    intro u hu
    by_cases ha : adjB env s u
    · rw [if_pos ha]
      exact ih u
    · rw [if_neg ha]

lemma distBetween_isolated {env : DetectorEnv} {X : String}
    (hE : ∀ u, env.edge X u = false ∧ env.edge u X = false) {s : String}
    (hs : s ≠ X) : distBetween env s X = none := by
  unfold distBetween
  rw [if_neg hs]
  apply List.find?_eq_none.mpr
  intro l hl
  have h1 : 1 ≤ l := by
    rcases List.mem_range'_1.mp hl with ⟨hlo, _⟩
    exact hlo
  obtain ⟨l0, rfl⟩ : ∃ l0, l = l0 + 1 := ⟨l - 1, by omega⟩
  simp [walkCount_to_isolated hE l0 s]

lemma bcRaw_isolated {env : DetectorEnv} {X : String}
    (hE : ∀ u, env.edge X u = false ∧ env.edge u X = false) :
    bcRaw env X = 0 := by
  unfold bcRaw
  apply Finset.sum_eq_zero
  intro s hs
  apply Finset.sum_eq_zero
  intro t ht
  have hsX : s ≠ X := Finset.ne_of_mem_erase hs
  unfold throughCount
  rw [distBetween_isolated hE hsX]
  simp

/-- C5 (amended): compute_combined_risk_score assigns exactly 0 to
every candidate in the graph that has no collaboration edges, no
authored github evidence and no positive synthetic override score, for
every population of other candidates (on a fresh detector instance).
Without the override condition the claim fails: the override is folded
in with a maximum. -/
theorem combined_risk_isolated_no_override (env : DetectorEnv) (X : String)
    (hX : X ∈ env.nodes)
    (hE : ∀ u, env.edge X u = false ∧ env.edge u X = false)
    (hEv : env.evidence X = 0)
    (hSyn : env.bc_synthetic X ≤ 0) :
    ((compute_combined_risk_score env emptyScores).1).getD X 0 = 0 := by
  have hne : env.nodes ≠ ∅ := Finset.ne_empty_of_mem hX
  have hbrandes : brandes_bc env X = 0 := by
    unfold brandes_bc
    rw [bcRaw_isolated hE]
    simp
  have hcache : ¬ (emptyScores.dom ≠ ∅) := by simp [emptyScores]
  simp only [compute_combined_risk_score, compute_betweenness_centrality,
    if_neg hcache, if_neg hne]
  have hXdom : X ∈ (bcMap env).dom ∪ (compute_project_dependency_score env).dom :=
    Finset.mem_union_left _ hX
  simp only [ScoreMap.getD, if_pos hXdom]
  have hnet : (if X ∈ (bcMap env).dom then (bcMap env).val X else 0) = 0 := by
    rw [if_pos (show X ∈ (bcMap env).dom from by simpa [bcMap] using hX)]
    simp only [bcMap]
    rw [hbrandes]
    exact max_eq_left hSyn
  have hproj : (if X ∈ (compute_project_dependency_score env).dom then
      (compute_project_dependency_score env).val X else 0) = 0 := by
    rw [if_neg (show X ∉ (compute_project_dependency_score env).dom from by
      simp [compute_project_dependency_score, hEv])]
  rw [hnet, hproj]
  ring

/-- C5 counterexample: an isolated employee x with no evidence but a
synthetic override of 0.8 receives combined risk 0.4, not 0. -/
theorem combined_risk_override_counterexample :
    (∀ u, envOverride.edge "x" u = false ∧ envOverride.edge u "x" = false) ∧
    envOverride.evidence "x" = 0 ∧
    ((compute_combined_risk_score envOverride emptyScores).1).getD "x" 0 = 2/5 ∧
    (0 : ℚ) < ((compute_combined_risk_score envOverride emptyScores).1).getD "x" 0 :=
  ⟨fun u => ⟨rfl, rfl⟩, rfl, by with_unfolding_all rfl,
   of_decide_eq_true (by with_unfolding_all rfl)⟩

/-- Witness for C5 on a concrete isolated employee. -/
theorem combined_risk_isolated_witness :
    ((compute_combined_risk_score envIso emptyScores).1).getD "x" 0 = 0 :=
  combined_risk_isolated_no_override envIso "x" (by decide) (fun u => ⟨rfl, rfl⟩)
    rfl (le_refl 0)

/-- Expansion of a beam state with a two-candidate pool. -/
lemma expandState_two {env : Env} {w : Dict} {R : Finset String} {st : BState}
    {c1 c2 : Candidate} {g1 g2 : ℚ}
    (h1 : c1.id ∉ st.ids) (h2 : c2.id ∉ st.ids)
    (hg1 : marginalGain env w R st c1 = some g1)
    (hg2 : marginalGain env w R st c2 = some g2) :
    expandState env w R st [c1, c2] =
      some [mkNext R st c1 g1, mkNext R st c2 g2] := by
  simp only [expandState, if_neg h1, if_neg h2, hg1, hg2]

/-- C4 (amended): with a positive bc_penalty weight and k = 1, for a
pool of two candidates identical in every scored attribute (skills and
levels, global degree, availability hours) and differing only in risk
score, form_team selects the lower-risk candidate - provided both risk
scores are at most 0.5, the cap above which the flat penalty of 50
erases the difference. -/
theorem resilient_prefers_low_risk (env : Env) (mode : FormationMode)
    (cw : Option Dict) (c1 c2 : Candidate) (req : List String) (b1 b2 : ℚ)
    (hw : 0 < dictGet (buildWeights mode cw) "bc_penalty" 0)
    (hsk : c1.skills_detail = c2.skills_detail)
    (hdeg : env.degree c1.id = env.degree c2.id)
    (hhours : env.hours c1.id = env.hours c2.id)
    (hb1 : env.bc c1.id = some b1) (hb2 : env.bc c2.id = some b2)
    (hle1 : b1 ≤ 1/2) (hle2 : b2 ≤ 1/2) (hlt : b2 < b1) :
    form_team env [c1, c2] req 1 mode cw = some [c2] := by
  have hwbc : dictGet (buildWeights mode cw) "bc_penalty" 0 ≠ 0 := hw.ne'
  obtain ⟨W, hW⟩ : ∃ W, buildWeights mode cw = W := ⟨_, rfl⟩
  obtain ⟨R, hR⟩ : ∃ R, ((req.map String.toLower).toFinset : Finset String) = R :=
    ⟨_, rfl⟩
  rw [hW] at hw hwbc
  have hg1 : marginalGain env W R initState c1 = some
      (coverageScore W R initState.covered c1 + depthScore W R c1 +
        collabScore env W initState c1 + redundancyScore W initState.covered c1 +
        hoursScore env W c1 - b1 * 10 * dictGet W "bc_penalty" 0) := by
    simp only [marginalGain, bcPenaltyTerm, if_pos hwbc, hb1, Option.map_some']
    rw [if_pos hw, if_neg (not_lt.mpr hle1)]
  have hg2 : marginalGain env W R initState c2 = some
      (coverageScore W R initState.covered c2 + depthScore W R c2 +
        collabScore env W initState c2 + redundancyScore W initState.covered c2 +
        hoursScore env W c2 - b2 * 10 * dictGet W "bc_penalty" 0) := by
    simp only [marginalGain, bcPenaltyTerm, if_pos hwbc, hb2, Option.map_some']
    rw [if_pos hw, if_neg (not_lt.mpr hle2)]
  have hskills : get_skills c1 = get_skills c2 := by
    unfold get_skills
    rw [hsk]
  have hdepth : get_depth c1 R = get_depth c2 R := by
    unfold get_depth
    rw [hsk]
  have hSeq : coverageScore W R initState.covered c1 + depthScore W R c1 +
      collabScore env W initState c1 + redundancyScore W initState.covered c1 +
      hoursScore env W c1 =
      coverageScore W R initState.covered c2 + depthScore W R c2 +
        collabScore env W initState c2 + redundancyScore W initState.covered c2 +
        hoursScore env W c2 := by
    simp only [coverageScore, depthScore, redundancyScore, collabScore, hoursScore,
      initState, List.length_nil, hskills, hdepth, hdeg, hhours, if_true]
  have hlt2 : b2 * 10 * dictGet W "bc_penalty" 0 <
      b1 * 10 * dictGet W "bc_penalty" 0 :=
    mul_lt_mul_of_pos_right (mul_lt_mul_of_pos_right hlt (by norm_num)) hw
  have hcmp : ¬ ((mkNext R initState c1
      (coverageScore W R initState.covered c1 + depthScore W R c1 +
        collabScore env W initState c1 + redundancyScore W initState.covered c1 +
        hoursScore env W c1 - b1 * 10 * dictGet W "bc_penalty" 0)).score ≥
      (mkNext R initState c2
      (coverageScore W R initState.covered c2 + depthScore W R c2 +
        collabScore env W initState c2 + redundancyScore W initState.covered c2 +
        hoursScore env W c2 - b2 * 10 * dictGet W "bc_penalty" 0)).score) := by
    simp only [initState] at hSeq
    simp only [mkNext, initState]
    rw [not_le]
    linarith [hSeq, hlt2]
  have hpool : expandBeam env W R [c1, c2] [initState] = some
      [mkNext R initState c1
        (coverageScore W R initState.covered c1 + depthScore W R c1 +
          collabScore env W initState c1 + redundancyScore W initState.covered c1 +
          hoursScore env W c1 - b1 * 10 * dictGet W "bc_penalty" 0),
       mkNext R initState c2
        (coverageScore W R initState.covered c2 + depthScore W R c2 +
          collabScore env W initState c2 + redundancyScore W initState.covered c2 +
          hoursScore env W c2 - b2 * 10 * dictGet W "bc_penalty" 0)] := by
    rw [expandBeam,
      expandState_two (by simp [initState]) (by simp [initState]) hg1 hg2,
      expandBeam]
    rfl
  have hsort : sortByScoreDesc
      [mkNext R initState c1
        (coverageScore W R initState.covered c1 + depthScore W R c1 +
          collabScore env W initState c1 + redundancyScore W initState.covered c1 +
          hoursScore env W c1 - b1 * 10 * dictGet W "bc_penalty" 0),
       mkNext R initState c2
        (coverageScore W R initState.covered c2 + depthScore W R c2 +
          collabScore env W initState c2 + redundancyScore W initState.covered c2 +
          hoursScore env W c2 - b2 * 10 * dictGet W "bc_penalty" 0)] =
      [mkNext R initState c2
        (coverageScore W R initState.covered c2 + depthScore W R c2 +
          collabScore env W initState c2 + redundancyScore W initState.covered c2 +
          hoursScore env W c2 - b2 * 10 * dictGet W "bc_penalty" 0),
       mkNext R initState c1
        (coverageScore W R initState.covered c1 + depthScore W R c1 +
          collabScore env W initState c1 + redundancyScore W initState.covered c1 +
          hoursScore env W c1 - b1 * 10 * dictGet W "bc_penalty" 0)] := by
    simp only [sortByScoreDesc, insertByScore, if_neg hcmp]
  have hstep : stepRound env W R [c1, c2] [initState] = some
      [mkNext R initState c2
        (coverageScore W R initState.covered c2 + depthScore W R c2 +
          collabScore env W initState c2 + redundancyScore W initState.covered c2 +
          hoursScore env W c2 - b2 * 10 * dictGet W "bc_penalty" 0),
       mkNext R initState c1
        (coverageScore W R initState.covered c1 + depthScore W R c1 +
          collabScore env W initState c1 + redundancyScore W initState.covered c1 +
          hoursScore env W c1 - b1 * 10 * dictGet W "bc_penalty" 0)] := by
    simp only [stepRound, hpool, Option.map_some', hsort]
    rfl
  simp only [form_team, beamAfter, Option.some_bind]
  rw [hW, hR, hstep]
  simp [mkNext, initState]

/-- C4 counterexample: in resilient mode (bc_penalty 15), two otherwise
identical candidates with risk scores 0.9 and 0.6 both receive the flat
penalty of 50, the scores tie, and the stable sort keeps the
higher-risk candidate listed first, so the higher-risk candidate a is
selected although the lower-risk candidate b exists. -/
theorem resilient_prefers_low_risk_counterexample :
    envHighRisk.bc "a" = some (9/10) ∧
    envHighRisk.bc "b" = some (6/10) ∧
    ((6 : ℚ)/10) < 9/10 ∧
    (0 : ℚ) < dictGet (buildWeights .resilient none) "bc_penalty" 0 ∧
    candA.skills_detail = candB.skills_detail ∧
    form_team envHighRisk [candA, candB] ["python"] 1 .resilient none =
      some [candA] :=
  ⟨by with_unfolding_all rfl, by with_unfolding_all rfl, by norm_num,
   of_decide_eq_true (by with_unfolding_all rfl), rfl,
   by with_unfolding_all rfl⟩

/-- Witness for C4 with concrete risk scores 0.4 and 0.1 below the
cap. -/
theorem resilient_prefers_low_risk_witness :
    form_team envLowRisk [candA, candB] ["python"] 1 .resilient none =
      some [candB] :=
  resilient_prefers_low_risk envLowRisk .resilient none candA candB ["python"]
    (4/10) (1/10)
    (of_decide_eq_true (by with_unfolding_all rfl))
    rfl rfl rfl
    (by with_unfolding_all rfl)
    (by with_unfolding_all rfl)
    (of_decide_eq_true (by with_unfolding_all rfl))
    (of_decide_eq_true (by with_unfolding_all rfl))
    (of_decide_eq_true (by with_unfolding_all rfl))

/-- C2: evaluation of calculate_team_bus_factor at the failing input.
The team r1, r2 covers each required skill twice and receives bus
factor 0 (no single removal causes damage, the loop stops immediately);
the team u1, u2, in which u1 uniquely covers python, receives bus
factor 2.  The redundant team's bus factor is therefore not larger,
contradicting the claim and the cited bus-factor methodology. -/
theorem bus_factor_redundant_vs_unique_eval :
    (calculate_team_bus_factor envTeams ["r1", "r2"] ["Python", "SQL"]).1 = 0 ∧
    (calculate_team_bus_factor envTeams ["u1", "u2"] ["Python", "SQL"]).1 = 2 ∧
    (calculate_team_bus_factor envTeams ["r1", "r2"] ["Python", "SQL"]).1 <
      (calculate_team_bus_factor envTeams ["u1", "u2"] ["Python", "SQL"]).1 := by
  refine ⟨?_, ?_, ?_⟩
  · with_unfolding_all rfl
  · with_unfolding_all rfl
  · exact of_decide_eq_true (by with_unfolding_all rfl)

/-- Witness for C9: the performance-mode default weights have
bc_penalty 0, and a failing oracle does not change or crash the call. -/
theorem bc_penalty_zero_witness :
    (form_team { envZero with bc := fun _ => none } [candA] ["python"] 1
        .performance none =
      form_team { envZero with bc := fun _ => some 0 } [candA] ["python"] 1
        .performance none) ∧
    (form_team { envZero with bc := fun _ => none } [candA] ["python"] 1
        .performance none).isSome :=
  ⟨(bc_penalty_zero_no_centrality_dependence envZero [candA] ["python"] 1
      .performance none (by decide)).1 _ _,
   (bc_penalty_zero_no_centrality_dependence envZero [candA] ["python"] 1
      .performance none (by decide)).2 _⟩

end SmartChimera
